import Mathlib

/-!
Verification development for the WHIP pusher / WHEP player browser client.

The repository consists of two near-identical React components: `WHIPPusher`
(source file `src/unnamed/part_000`) and `WHEPPlayer`
(`src/src/components/WHEPPlayer.tsx`).  The logic relevant to the claims —
codec-list construction (`getUniqueCodecs`), codec-preference reordering and
per-track send encodings inside `startStream`, the bitrate computation inside
the stats interval callback, and the teardown sequence in
`stopStream`/`stopPlaying` — is embedded below as pure Lean functions.

Modelling conventions:
* JavaScript numbers used for byte counters and `Date.now()` timestamps are
  modelled as `ℤ` (they are integers in the source); the intermediate real
  arithmetic of the bitrate formula is modelled exactly over `ℚ`, and
  `Math.round` as `fun q => ⌊q + 1/2⌋` (round half toward positive infinity),
  its JavaScript semantics.
* JavaScript strings operated on character-wise (mime types, labels) are
  `List Char`; `toLowerCase`/`toUpperCase` are mapped `Char.toLower`/
  `Char.toUpper` (the code only ever lower/upper-cases ASCII media-type
  names); `String.prototype.includes` is substring containment;
  `localeCompare` ordering is modelled as lexicographic order on code points.
* The React component's state hooks and refs are gathered into a `SessState`
  record; the orchestration functions `startStream`/`stopStream` become pure
  state transformers that additionally return the ordered list of external
  effects they perform (`Event` trace).  Queued React state updates become
  user-visible only when the event loop is yielded; every `await` suspension
  point is recorded as a `yieldEv` event in the trace.
* Outcomes of external calls (`getUserMedia`, `WHIPClient.publish`,
  `WHIPClient.stop`, `RTCRtpSender.getCapabilities`) are inputs to the
  embedding, supplied through an `Ext` record.
-/

/-! ### Character and character-list helpers -/

/-- `Char.ofNat` of a scalar value below the surrogate range decodes back to
the same natural number. -/
theorem char_toNat_ofNat {n : Nat} (h : n < 55296) : (Char.ofNat n).toNat = n := by
  have hv : n.isValidChar := Or.inl h
  simp [Char.ofNat, hv, Char.ofNatAux, Char.toNat, UInt32.toNat, BitVec.toNat_ofNatLt]

/-- `Char.toUpper` never produces the lower-case letter `u`. -/
theorem char_toUpper_ne_u (c : Char) : Char.toUpper c ≠ 'u' := by
  intro h
  simp only [Char.toUpper] at h
  split at h
  · have h2 := congrArg Char.toNat h
    rw [char_toNat_ofNat (by omega)] at h2
    have : ('u' : Char).toNat = 117 := by decide
    omega
  · subst h
    simp only [show ('u' : Char).toNat = 117 from by decide] at *
    omega

/-- `Char.toLower` is idempotent. -/
theorem char_toLower_idem (c : Char) : Char.toLower (Char.toLower c) = Char.toLower c := by
  simp only [Char.toLower]
  split
  · rw [char_toNat_ofNat (by omega)]
    split
    · omega
    · rfl
  · rfl

/-- `String.prototype.toLowerCase`, character-wise. -/
def toLowerL (s : List Char) : List Char := s.map Char.toLower

/-- `String.prototype.toUpperCase`, character-wise. -/
def toUpperL (s : List Char) : List Char := s.map Char.toUpper

/-- Boolean prefix test on character lists. -/
def isPrefixL : List Char → List Char → Bool
  | [], _ => true
  | _ :: _, [] => false
  | a :: as, b :: bs => a == b && isPrefixL as bs

/-- Boolean substring test on character lists; models
`String.prototype.includes` and the case-insensitive regex tests of the
source once both sides are lower-cased. -/
def isInfixL (p : List Char) : List Char → Bool
  | [] => p.isEmpty
  | b :: bs => isPrefixL p (b :: bs) || isInfixL p bs

theorem isPrefixL_iff (p s : List Char) : isPrefixL p s = true ↔ p <+: s := by
  induction p generalizing s with
  | nil => simp [isPrefixL]
  | cons a as ih =>
    cases s with
    | nil => simp [isPrefixL]
    | cons b bs =>
      simp only [isPrefixL, Bool.and_eq_true, beq_iff_eq, ih, List.prefix_cons_iff]
      constructor
      · rintro ⟨rfl, hp⟩
        exact Or.inr ⟨as, rfl, hp⟩
      · rintro (h | ⟨t, ht, hp⟩)
        · exact absurd h (List.cons_ne_nil a as)
        · cases ht
          exact ⟨rfl, hp⟩

theorem isInfixL_iff (p s : List Char) : isInfixL p s = true ↔ p <:+: s := by
  induction s with
  | nil =>
    simp only [isInfixL, List.isEmpty_iff]
    constructor
    · rintro rfl; exact List.infix_rfl
    · intro h; exact List.eq_nil_of_infix_nil h
  | cons b bs ih =>
    simp only [isInfixL, Bool.or_eq_true, isPrefixL_iff, ih, List.infix_cons_iff]

/-- Characters of the second `/`-separated segment, up to the next `/`:
models `mimeType.split('/')[1]` for well-formed media-type strings (for a
string with no `/` the JavaScript expression is `undefined`; the model
returns `[]`, which no claim exercises). -/
def takeUntilSlash : List Char → List Char
  | [] => []
  | c :: cs => if c = '/' then [] else c :: takeUntilSlash cs

def afterSlash : List Char → List Char
  | [] => []
  | c :: cs => if c = '/' then takeUntilSlash cs else afterSlash cs

def mimeSubtype (m : List Char) : List Char := afterSlash m

theorem takeUntilSlash_prefix_self (s : List Char) : takeUntilSlash s <+: s := by
  induction s with
  | nil => simp [takeUntilSlash]
  | cons c cs ih =>
    simp only [takeUntilSlash]
    split
    · exact List.nil_prefix
    · exact (List.prefix_cons_inj c).mpr ih

theorem mimeSubtype_infix_self (m : List Char) : mimeSubtype m <:+: m := by
  unfold mimeSubtype
  induction m with
  | nil => exact List.infix_rfl
  | cons c cs ih =>
    simp only [afterSlash]
    split
    · have h1 := List.IsPrefix.isInfix (takeUntilSlash_prefix_self cs)
      exact List.infix_cons h1
    · exact List.infix_cons ih

theorem toLowerL_idem (s : List Char) : toLowerL (toLowerL s) = toLowerL s := by
  simp [toLowerL, List.map_map, Function.comp_def, char_toLower_idem]

/-- The label `"Auto"` is never the image of `toUpperL` (its second
character is a lower-case `u`). -/
theorem toUpperL_ne_Auto (s : List Char) : toUpperL s ≠ "Auto".toList := by
  intro h
  have : "Auto".toList = ['A', 'u', 't', 'o'] := rfl
  rw [this] at h
  unfold toUpperL at h
  cases s with
  | nil => simp at h
  | cons a as =>
    cases as with
    | nil => simp at h
    | cons b bs =>
      simp only [List.map_cons, List.cons.injEq] at h
      exact char_toUpper_ne_u b h.2.1

/-! ### Bitrate computation (Stats Sampler)

Embeds the arithmetic of the stats interval callback:
`part_000` lines 251–252 and 267–269 (video), 289–291 (audio), and the
identical `WHEPPlayer.tsx` lines 85–86, 98–100, 120–122:

  const now = Date.now();
  const interval = (now - lastBytesSentRef.current.timestamp) / 1000;
  bitrate = interval > 0 ? Math.round(((bytesSent - last) * 8) / interval) : 0;
-/

/-- JavaScript `Math.round`: round half toward positive infinity. -/
def jsRound (q : ℚ) : ℤ := ⌊q + 1 / 2⌋

/-- One bitrate sample: previous byte counter and timestamp (milliseconds),
current byte counter and current time (milliseconds). -/
def computeBitrate (prevBytes prevTimestamp curBytes now : ℤ) : ℤ :=
  let interval : ℚ := ((now - prevTimestamp : ℤ) : ℚ) / 1000
  if 0 < interval then jsRound ((((curBytes - prevBytes : ℤ) : ℚ) * 8) / interval) else 0

/-- **C1.** For consecutive samples with strictly positive elapsed time, the
reported bitrate is exactly `round((b1 - b0) * 8 / elapsedSeconds)` where
`elapsedSeconds = (t1 - t0) / 1000` is the wall-clock delta. -/
theorem bitrate_matches_spec_formula (b0 t0 b1 t1 : ℤ) (h : t0 < t1) :
    computeBitrate b0 t0 b1 t1 =
      jsRound ((((b1 - b0 : ℤ) : ℚ) * 8) / (((t1 - t0 : ℤ) : ℚ) / 1000)) := by
  unfold computeBitrate
  rw [if_pos]
  have : (0 : ℚ) < ((t1 - t0 : ℤ) : ℚ) := by exact_mod_cast sub_pos.mpr h
  positivity

/-- **C1 witness.** With `b0 = 1000` at `t0 = 0` and `b1 = 26000` at
`t1 = 1000 ms` (one second), the bitrate is exactly `200000` bit/s. -/
theorem bitrate_matches_spec_formula_witness :
    (0 : ℤ) < 1000 ∧ computeBitrate 1000 0 26000 1000 = 200000 := by
  refine ⟨by norm_num, ?_⟩
  rw [bitrate_matches_spec_formula 1000 0 26000 1000 (by norm_num)]
  unfold jsRound
  norm_num

/-- **C2.** Whenever the elapsed time is zero or negative, the computed
bitrate is `0`; the computation is a total function (no division by zero or
by a negative number is ever performed, and nothing is thrown). -/
theorem bitrate_zero_of_nonpos_elapsed (b0 t0 b1 t1 : ℤ) (h : t1 - t0 ≤ 0) :
    computeBitrate b0 t0 b1 t1 = 0 := by
  unfold computeBitrate
  rw [if_neg]
  intro hpos
  have hc : ((t1 - t0 : ℤ) : ℚ) ≤ 0 := by exact_mod_cast h
  have : (0 : ℚ) < ((t1 - t0 : ℤ) : ℚ) / 1000 := hpos
  nlinarith

/-- **C2 witness.** A sample taken at the same millisecond as the previous
one (elapsed time exactly zero) reports bitrate `0`. -/
theorem bitrate_zero_of_nonpos_elapsed_witness :
    (5 : ℤ) - 5 ≤ 0 ∧ computeBitrate 3 5 99 5 = 0 :=
  ⟨by norm_num, bitrate_zero_of_nonpos_elapsed 3 5 99 5 (by norm_num)⟩

/-! ### Codec model (`part_000` lines 40–96, 191–231) -/

/-- One entry of `RTCRtpSender.getCapabilities(kind).codecs`. -/
structure RTCCodec where
  mimeType : List Char
  sdpFmtpLine : List Char := []
deriving DecidableEq

/-- One entry of the codec dropdown (`CodecOption`, `part_000` lines 40–43). -/
structure CodecOption where
  mimeType : List Char
  label : List Char
deriving DecidableEq

/-- `EXCLUDED_CODEC_PATTERNS` (`part_000` lines 63–69): the case-insensitive
regexes `/red/i`, `/rtx/i`, `/fec/i`, `/cn/i`, `/telephone-event/i`,
modelled as lower-case substring patterns. -/
def EXCLUDED_CODEC_PATTERNS : List (List Char) :=
  ["red".toList, "rtx".toList, "fec".toList, "cn".toList, "telephone-event".toList]

/-- `EXCLUDED_CODEC_PATTERNS.some(pattern => pattern.test(codec.mimeType))`. -/
def excludedTest (m : List Char) : Bool :=
  EXCLUDED_CODEC_PATTERNS.any fun p => isInfixL p (toLowerL m)

/-- One step of filling the `uniqueCodecs` map (`part_000` lines 78–83):
keyed by the upper-cased subtype, first occurrence wins, insertion order
preserved. -/
def insertCodec (acc : List (List Char × RTCCodec)) (codec : RTCCodec) :
    List (List Char × RTCCodec) :=
  let baseCodec := toUpperL (mimeSubtype codec.mimeType)
  if acc.any (fun e => e.1 == baseCodec) then acc else acc ++ [(baseCodec, codec)]

def buildCodecMap (codecs : List RTCCodec) : List (List Char × RTCCodec) :=
  codecs.foldl insertCodec []

/-- Comparator used for `sort((a, b) => a.label.localeCompare(b.label))`,
modelled as lexicographic order on the label's code points. -/
def codecLe (a b : CodecOption) : Prop := a.label ≤ b.label

instance : DecidableRel codecLe :=
  fun a b => inferInstanceAs (Decidable (a.label ≤ b.label))

instance : IsTotal CodecOption codecLe := ⟨fun a b => le_total a.label b.label⟩

instance : IsTrans CodecOption codecLe := ⟨fun _ _ _ h1 h2 => le_trans h1 h2⟩

/-- `getUniqueCodecs` (`part_000` lines 71–96).  The argument is the result
of `RTCRtpSender.getCapabilities(kind)`: `none` models an unavailable
capability set, `some cl` a capability object whose `codecs` array is
`cl`. -/
def getUniqueCodecs (capabilities : Option (List RTCCodec)) : List CodecOption :=
  match capabilities with
  | none => []
  | some codecs =>
    let filtered := codecs.filter fun codec => !excludedTest codec.mimeType
    let uniqueCodecs := buildCodecMap filtered
    let sortedCodecs := List.insertionSort codecLe
      (uniqueCodecs.map fun e =>
        { mimeType := toLowerL (mimeSubtype e.2.mimeType), label := e.1 })
    { mimeType := "auto".toList, label := "Auto".toList } :: sortedCodecs

/-- Codec-preference list built per track inside `startStream`
(`part_000` lines 191–210): when the requested codec for the track's kind is
not `'auto'` and matches at least one capability entry (case-insensitive
substring on the mime type), the matching entries come first followed by the
non-matching ones in original order; otherwise the list is empty and no
preference is set.  The source's local `const selectedCodec` and
`matchingCodecs` are written out below (`matchingCodecs` appears inlined
three times, exactly as the JavaScript local is used three times). -/
def selectedCodec (kind : String) (videoCodec audioCodec : List Char) : List Char :=
  if kind = "video" then videoCodec else audioCodec

/-- The filter predicate
`c => c.mimeType.toLowerCase().includes(selectedCodec.toLowerCase())`. -/
def codecMatches (sel : List Char) (c : RTCCodec) : Bool :=
  isInfixL (toLowerL sel) (toLowerL c.mimeType)

def trackCodecs (kind : String) (videoCodec audioCodec : List Char)
    (capabilities : Option (List RTCCodec)) : List RTCCodec :=
  match capabilities with
  | none => []
  | some caps =>
    if (kind = "video" ∧ videoCodec ≠ "auto".toList) ∨
       (kind = "audio" ∧ audioCodec ≠ "auto".toList) then
      if (caps.filter (codecMatches (selectedCodec kind videoCodec audioCodec))).length > 0 then
        caps.filter (codecMatches (selectedCodec kind videoCodec audioCodec)) ++
          caps.filter (fun c =>
            !((caps.filter (codecMatches (selectedCodec kind videoCodec audioCodec))).contains c))
      else []
    else []

/-- `StreamSettings` (`part_000` lines 35–38): `none` models `undefined`. -/
structure StreamSettings where
  maxBitrate : Option Nat := none
  maxFrameRate : Option Nat := none
deriving DecidableEq

/-- One element of `sendEncodings` (`RTCRtpEncodingParameters`). -/
structure Encoding where
  maxBitrate : Option Nat := none
  maxFramerate : Option Nat := none
deriving DecidableEq

/-- JavaScript truthiness of an optional number (`undefined`, `null` and `0`
are falsy). -/
def jsTruthy : Option Nat → Bool
  | none => false
  | some n => n != 0

/-- `sendEncodings` built per track inside `startStream`
(`part_000` lines 212–221): kbps values are scaled by 1000. -/
def trackEncodings (kind : String) (videoSettings audioSettings : StreamSettings) :
    List Encoding :=
  if kind = "video" then
    if jsTruthy videoSettings.maxBitrate || jsTruthy videoSettings.maxFrameRate then
      [{ maxBitrate := if jsTruthy videoSettings.maxBitrate then
           videoSettings.maxBitrate.map (· * 1000) else none,
         maxFramerate := if jsTruthy videoSettings.maxFrameRate then
           videoSettings.maxFrameRate else none }]
    else []
  else if kind = "audio" ∧ jsTruthy audioSettings.maxBitrate then
    [{ maxBitrate := audioSettings.maxBitrate.map (· * 1000), maxFramerate := none }]
  else []

/-- `matchingCodecs.includes(c)` membership against `l.filter p` coincides
with `p c` for elements `c` of `l`, so the non-matching remainder of the
codec-preference list is exactly the original list filtered by `!p`. -/
theorem filter_not_contains_eq (l : List RTCCodec) (p : RTCCodec → Bool) :
    l.filter (fun c => !((l.filter p).contains c)) = l.filter (fun c => !(p c)) := by
  apply List.filter_congr
  intro x hx
  have hc : (l.filter p).contains x = p x := by
    by_cases hp : p x = true
    · simp only [hp]
      exact List.elem_iff.mpr (List.mem_filter.mpr ⟨hx, hp⟩)
    · have hb : p x = false := by simpa using hp
      simp only [hb]
      rw [Bool.eq_false_iff]
      intro hmem
      have := (List.mem_filter.mp (List.elem_iff.mp hmem)).2
      rw [hb] at this
      exact Bool.false_ne_true this
  rw [hc]

/-- **C5.** For a track whose requested codec is not `'auto'` and matches at
least one capability entry, the codec-preference list is the matching codecs
first, followed by the non-matching codecs in their original relative order;
when the requested codec is `'auto'`, matches nothing, or the capability set
is unavailable, the list is empty and no preference is set. -/
theorem codec_preference_spec (kind : String) (videoCodec audioCodec : List Char)
    (caps : List RTCCodec) (hk : kind = "video" ∨ kind = "audio") :
    (selectedCodec kind videoCodec audioCodec ≠ "auto".toList →
      caps.filter (codecMatches (selectedCodec kind videoCodec audioCodec)) ≠ [] →
      trackCodecs kind videoCodec audioCodec (some caps) =
        caps.filter (codecMatches (selectedCodec kind videoCodec audioCodec)) ++
          caps.filter (fun c => !(codecMatches (selectedCodec kind videoCodec audioCodec) c)))
    ∧ (selectedCodec kind videoCodec audioCodec = "auto".toList →
        trackCodecs kind videoCodec audioCodec (some caps) = [])
    ∧ (caps.filter (codecMatches (selectedCodec kind videoCodec audioCodec)) = [] →
        trackCodecs kind videoCodec audioCodec (some caps) = [])
    ∧ trackCodecs kind videoCodec audioCodec none = [] := by
  rcases hk with rfl | rfl
  · have hsel : selectedCodec "video" videoCodec audioCodec = videoCodec := if_pos rfl
    rw [hsel]
    refine ⟨fun hne hm => ?_, fun heq => ?_, fun hm => ?_, rfl⟩
    · simp only [trackCodecs]
      rw [if_pos (Or.inl ⟨trivial, hne⟩), hsel, if_pos (List.length_pos.mpr hm),
        filter_not_contains_eq]
    · simp only [trackCodecs]
      rw [if_neg]
      rintro (⟨_, hne⟩ | ⟨hbad, _⟩)
      · exact hne heq
      · exact absurd hbad (by decide)
    · by_cases heq : videoCodec = "auto".toList
      · simp only [trackCodecs]
        rw [if_neg]
        rintro (⟨_, hne⟩ | ⟨hbad, _⟩)
        · exact hne heq
        · exact absurd hbad (by decide)
      · simp only [trackCodecs]
        rw [if_pos (Or.inl ⟨trivial, heq⟩), hsel, if_neg]
        rw [hm]
        simp
  · have hsel : selectedCodec "audio" videoCodec audioCodec = audioCodec :=
      if_neg (by decide)
    rw [hsel]
    refine ⟨fun hne hm => ?_, fun heq => ?_, fun hm => ?_, rfl⟩
    · simp only [trackCodecs]
      rw [if_pos (Or.inr ⟨trivial, hne⟩), hsel, if_pos (List.length_pos.mpr hm),
        filter_not_contains_eq]
    · simp only [trackCodecs]
      rw [if_neg]
      rintro (⟨hbad, _⟩ | ⟨_, hne⟩)
      · exact absurd hbad (by decide)
      · exact hne heq
    · by_cases heq : audioCodec = "auto".toList
      · simp only [trackCodecs]
        rw [if_neg]
        rintro (⟨hbad, _⟩ | ⟨_, hne⟩)
        · exact absurd hbad (by decide)
        · exact hne heq
      · simp only [trackCodecs]
        rw [if_pos (Or.inr ⟨trivial, heq⟩), hsel, if_neg]
        rw [hm]
        simp

/-- **C5 witness.** Requesting `h264` against capabilities
`[video/H264, video/VP8]` puts the matching codec first and keeps the
remainder in original order. -/
theorem codec_preference_spec_witness :
    trackCodecs "video" "h264".toList "auto".toList
        (some [{ mimeType := "video/H264".toList }, { mimeType := "video/VP8".toList }]) =
      [{ mimeType := "video/H264".toList }] ++ [{ mimeType := "video/VP8".toList }] := by
  have h := (codec_preference_spec "video" "h264".toList "auto".toList
      [{ mimeType := "video/H264".toList }, { mimeType := "video/VP8".toList }]
      (Or.inl rfl)).1 (by decide) (by decide)
  rw [h]
  decide

/-- **C8.** A falsy (`undefined` or `0`) max-bitrate setting contributes no
`maxBitrate` encoding constraint for the track (for audio no encoding at
all); a positive value `B` (kbps) yields exactly one encoding whose
`maxBitrate` is `B * 1000` bit/s. -/
theorem encodings_max_bitrate_spec (kind : String)
    (videoSettings audioSettings : StreamSettings) (hk : kind = "video" ∨ kind = "audio") :
    ((if kind = "video" then videoSettings.maxBitrate else audioSettings.maxBitrate) = none ∨
     (if kind = "video" then videoSettings.maxBitrate else audioSettings.maxBitrate) = some 0 →
      ∀ e ∈ trackEncodings kind videoSettings audioSettings, e.maxBitrate = none)
    ∧ (∀ b : Nat,
        (if kind = "video" then videoSettings.maxBitrate else audioSettings.maxBitrate) =
          some b → b ≠ 0 →
        ∃ fr, trackEncodings kind videoSettings audioSettings =
          [{ maxBitrate := some (b * 1000), maxFramerate := fr }]) := by
  rcases hk with rfl | rfl
  · rw [if_pos rfl]
    constructor
    · intro hmb e he
      have hfalse : jsTruthy videoSettings.maxBitrate = false := by
        rcases hmb with h | h <;> rw [h] <;> rfl
      rw [trackEncodings, if_pos rfl, hfalse, Bool.false_or] at he
      by_cases hfr : jsTruthy videoSettings.maxFrameRate = true
      · rw [if_pos hfr] at he
        simp only [List.mem_singleton] at he
        subst he
        simp
      · rw [if_neg hfr] at he
        exact absurd he (List.not_mem_nil e)
    · intro b hb hb0
      have htrue : jsTruthy videoSettings.maxBitrate = true := by
        rw [hb]
        simp [jsTruthy, hb0]
      refine ⟨if jsTruthy videoSettings.maxFrameRate then videoSettings.maxFrameRate
        else none, ?_⟩
      rw [trackEncodings, if_pos rfl, htrue, Bool.true_or, if_pos rfl, hb]
      simp
  · rw [if_neg (show ("audio" : String) ≠ "video" by decide)]
    constructor
    · intro hmb e he
      have hfalse : jsTruthy audioSettings.maxBitrate = false := by
        rcases hmb with h | h <;> rw [h] <;> rfl
      rw [trackEncodings, if_neg (show ("audio" : String) ≠ "video" by decide)] at he
      rw [if_neg] at he
      · exact absurd he (List.not_mem_nil e)
      · rintro ⟨_, htr⟩
        rw [hfalse] at htr
        exact Bool.false_ne_true htr
    · intro b hb hb0
      have htrue : jsTruthy audioSettings.maxBitrate = true := by
        rw [hb]
        simp [jsTruthy, hb0]
      refine ⟨none, ?_⟩
      rw [trackEncodings, if_neg (show ("audio" : String) ≠ "video" by decide),
        if_pos (And.intro rfl htrue), hb]
      simp

/-- **C8 witness.** A video max-bitrate of 2500 kbps yields one encoding
with `maxBitrate = 2500000`; an audio max-bitrate of `0` yields no bitrate
constraint. -/
theorem encodings_max_bitrate_spec_witness :
    (∃ fr, trackEncodings "video"
        { maxBitrate := some 2500, maxFrameRate := none } {} =
        [{ maxBitrate := some 2500000, maxFramerate := fr }]) ∧
    (∀ e ∈ trackEncodings "audio" {} { maxBitrate := some 0, maxFrameRate := none },
      e.maxBitrate = none) := by
  constructor
  · exact (encodings_max_bitrate_spec "video"
      { maxBitrate := some 2500, maxFrameRate := none } {} (Or.inl rfl)).2
      2500 (by decide) (by decide)
  · exact (encodings_max_bitrate_spec "audio" {}
      { maxBitrate := some 0, maxFrameRate := none } (Or.inr rfl)).1
      (Or.inr (by decide))

/-- Every entry of the `uniqueCodecs` map is keyed by the upper-cased
subtype of a codec of the input list. -/
theorem mem_foldl_insertCodec (l : List RTCCodec) :
    ∀ (acc : List (List Char × RTCCodec)) (e : List Char × RTCCodec),
      e ∈ l.foldl insertCodec acc →
      e ∈ acc ∨ (e.1 = toUpperL (mimeSubtype e.2.mimeType) ∧ e.2 ∈ l) := by
  induction l with
  | nil => exact fun acc e h => Or.inl h
  | cons c cs ih =>
    intro acc e h
    rw [List.foldl_cons] at h
    rcases ih _ e h with h' | ⟨h1, h2⟩
    · simp only [insertCodec] at h'
      split at h'
      · exact Or.inl h'
      · rcases List.mem_append.mp h' with h'' | h''
        · exact Or.inl h''
        · simp only [List.mem_singleton] at h''
          subst h''
          exact Or.inr ⟨rfl, List.mem_cons_self c cs⟩
    · exact Or.inr ⟨h1, List.mem_cons_of_mem c h2⟩

/-- The keys of the `uniqueCodecs` map are pairwise distinct (the map keeps
only the first codec for each upper-cased subtype). -/
theorem nodup_keys_foldl_insertCodec (l : List RTCCodec) :
    ∀ acc : List (List Char × RTCCodec),
      (acc.map Prod.fst).Nodup → ((l.foldl insertCodec acc).map Prod.fst).Nodup := by
  induction l with
  | nil => exact fun acc h => h
  | cons c cs ih =>
    intro acc h
    rw [List.foldl_cons]
    apply ih
    simp only [insertCodec]
    split
    · exact h
    · rename_i hany
      rw [List.map_append, List.map_singleton, List.nodup_append]
      refine ⟨h, List.nodup_singleton _, ?_⟩
      intro x hx hx1
      rw [List.mem_singleton] at hx1
      subst hx1
      obtain ⟨e, he, hfst⟩ := List.mem_map.mp hx
      exact hany (List.any_eq_true.mpr ⟨e, he, by simp [hfst]⟩)

/-- If a full mime type passes the excluded-pattern filter, so does its
lower-cased subtype (the subtype is a substring of the full type and the
test is case-insensitive). -/
theorem excludedTest_mimeSubtype {m : List Char} (h : excludedTest m = false) :
    excludedTest (toLowerL (mimeSubtype m)) = false := by
  rw [excludedTest, List.any_eq_false] at h ⊢
  intro p hp
  specialize h p hp
  intro hcontra
  apply h
  rw [toLowerL_idem] at hcontra
  rw [isInfixL_iff] at hcontra ⊢
  exact hcontra.trans (List.IsInfix.map Char.toLower (mimeSubtype_infix_self m))

/-- **C9.** For an available capability set the codec dropdown list starts
with the `Auto` entry, contains no codec matching an excluded pattern
(`red`, `rtx`, `fec`, `cn`, `telephone-event`, case-insensitively), has
pairwise distinct labels (the non-`Auto` ones upper-cased), and its
non-`Auto` tail is sorted by label; an unavailable capability set yields the
empty list. -/
theorem getUniqueCodecs_spec (cl : List RTCCodec) :
    (getUniqueCodecs (some cl)).head? =
        some { mimeType := "auto".toList, label := "Auto".toList }
    ∧ (∀ o ∈ getUniqueCodecs (some cl), excludedTest o.mimeType = false)
    ∧ ((getUniqueCodecs (some cl)).map CodecOption.label).Nodup
    ∧ List.Sorted codecLe (getUniqueCodecs (some cl)).tail
    ∧ getUniqueCodecs none = [] := by
  have hmap : ∀ e ∈ buildCodecMap (cl.filter fun codec => !excludedTest codec.mimeType),
      e.1 = toUpperL (mimeSubtype e.2.mimeType) ∧ excludedTest e.2.mimeType = false := by
    intro e he
    rcases mem_foldl_insertCodec _ _ e he with h | ⟨h1, h2⟩
    · exact absurd h (List.not_mem_nil e)
    · refine ⟨h1, ?_⟩
      have := (List.mem_filter.mp h2).2
      simpa using this
  refine ⟨rfl, ?_, ?_, ?_, rfl⟩
  · intro o ho
    simp only [getUniqueCodecs] at ho
    rcases List.mem_cons.mp ho with rfl | ho'
    · decide
    · obtain ⟨e, he, rfl⟩ := List.mem_map.mp (List.mem_insertionSort codecLe |>.mp ho')
      exact excludedTest_mimeSubtype (hmap e he).2
  · simp only [getUniqueCodecs, List.map_cons]
    rw [List.nodup_cons]
    have hperm : ((List.insertionSort codecLe
        ((buildCodecMap (cl.filter fun codec => !excludedTest codec.mimeType)).map
          fun e => ({ mimeType := toLowerL (mimeSubtype e.2.mimeType), label := e.1 } :
            CodecOption))).map CodecOption.label).Perm
        ((buildCodecMap (cl.filter fun codec => !excludedTest codec.mimeType)).map
          Prod.fst) := by
      have h1 := (List.perm_insertionSort codecLe
        ((buildCodecMap (cl.filter fun codec => !excludedTest codec.mimeType)).map
          fun e => ({ mimeType := toLowerL (mimeSubtype e.2.mimeType), label := e.1 } :
            CodecOption))).map CodecOption.label
      rw [List.map_map] at h1
      exact h1
    constructor
    · intro hmem
      have := hperm.mem_iff.mp hmem
      obtain ⟨e, he, hfst⟩ := List.mem_map.mp this
      exact toUpperL_ne_Auto _ ((hmap e he).1 ▸ hfst)
    · refine hperm.nodup_iff.mpr ?_
      exact nodup_keys_foldl_insertCodec _ [] List.nodup_nil
  · simp only [getUniqueCodecs, List.tail_cons]
    exact List.sorted_insertionSort codecLe _

/-! ### Session state and orchestration (`part_000` lines 98–352)

`SessState` gathers the `WHIPPusher` component's state hooks and refs.
`stopStream`/`startStream` are embedded as pure state transformers that
also return the ordered list of external effects (`Event` trace).  The
`WHEPPlayer` component's `startPlaying`/`stopPlaying` (WHEPPlayer.tsx lines
43–183) perform the same teardown and failure handling line for line (with
`view` in place of `publish` and no local capture), so the teardown
theorems below read on the single embedded flow. -/

structure VideoStats where
  codec : Option String := none
  bitrate : Option Int := none
  frameRate : Option Nat := none
  resolution : Option String := none
deriving DecidableEq

structure AudioStats where
  codec : Option String := none
  bitrate : Option Int := none
  level : Option Int := none
deriving DecidableEq

structure ConnectionStats where
  dtlsState : Option String := none
  iceState : Option String := none
deriving DecidableEq

structure BytesSent where
  video : Int
  audio : Int
  timestamp : Int
deriving DecidableEq

structure Resolution where
  width : Option Nat := none
  height : Option Nat := none
  label : String
deriving DecidableEq

structure PeerConnection where
  id : Nat
  iceConnectionState : String
  connectionState : String
deriving DecidableEq

structure MediaTrack where
  id : Nat
  kind : String
deriving DecidableEq

structure MediaStream where
  id : Nat
  tracks : List MediaTrack
deriving DecidableEq

/-- The `getUserMedia` constraints object built in `startStream`
(`part_000` lines 167–180). -/
structure Constraints where
  videoDeviceId : String
  width : Option Nat
  height : Option Nat
  audioDeviceId : String
  echoCancellation : Bool
  noiseSuppression : Bool
deriving DecidableEq

/-- One observable external effect of the orchestration code.  `yieldEv`
marks an `await` suspension point: queued React state updates can become
user-visible only at such a point (or after the handler returns, which every
trace ends with). -/
inductive Event where
  | setErrorEv (msg : Option String)
  | getUserMediaEv (c : Constraints)
  | newPcEv (id : Nat)
  | addTransceiverEv (kind : String) (encodings : List Encoding)
  | setCodecPrefEv (codecs : List RTCCodec)
  | publishEv (url token : String)
  | setIntervalEv (id : Nat)
  | clearIntervalEv (id : Nat)
  | pcCloseEv (id : Nat)
  | trackStopEv (id : Nat)
  | whipStopEv
  | yieldEv
deriving DecidableEq

/-- Component state (`useState` hooks) and refs of `WHIPPusher`
(`part_000` lines 99–125). -/
structure SessState where
  url : String
  token : String
  selectedVideo : String
  selectedAudio : String
  selectedResolution : Resolution
  isStreaming : Bool
  videoStats : VideoStats
  audioStats : AudioStats
  connectionStats : ConnectionStats
  videoCodec : List Char
  audioCodec : List Char
  error : Option String
  videoSettings : StreamSettings
  audioSettings : StreamSettings
  whipClientRef : Option Unit
  pcRef : Option PeerConnection
  streamRef : Option MediaStream
  videoSrc : Option MediaStream
  lastBytesSent : BytesSent
  statsInterval : Option Nat
deriving DecidableEq

/-- Outcomes of the external calls made during one `startStream` attempt:
the media capture, the per-kind sender capabilities, the result of
`whipClient.publish` (`none` = resolved, `some msg` = rejected with message
`msg`), fresh ids for the peer connection and interval timer, and the result
of a `whipClient.stop` call should teardown reach one. -/
structure ExtCalls where
  getUserMedia : Except String MediaStream
  capabilities : String → Option (List RTCCodec)
  publish : Option String
  pcId : Nat
  timerId : Nat
  whipStopErr : Option String

/-- `stopStream` (`part_000` lines 311–352).  The `whipStopErr` argument is
the outcome of the `await whipClientRef.current.stop()` call (only reached
when a client ref is held): `some msg` models a rejected promise, which the
surrounding `try`/`catch` turns into `setError(msg)` — note that the ref is
then *not* cleared, since the `whipClientRef.current = null` line is skipped
by the exception. -/
def stopStream (s : SessState) (whipStopErr : Option String) : SessState × List Event :=
  let s1 := { s with isStreaming := false }
  let r2 : SessState × List Event :=
    if jsTruthy s1.statsInterval then
      ({ s1 with statsInterval := none }, [Event.clearIntervalEv (s1.statsInterval.getD 0)])
    else (s1, [])
  let s3 := { r2.1 with audioStats := {}, videoStats := {},
                        lastBytesSent := { video := 0, audio := 0, timestamp := 0 } }
  let r4 : SessState × List Event :=
    match s3.pcRef with
    | some pc =>
        let cs : ConnectionStats :=
          if pc.iceConnectionState = "failed" then
            { iceState := some pc.iceConnectionState, dtlsState := some pc.connectionState }
          else
            { iceState := some "closed", dtlsState := some "closed" }
        ({ s3 with connectionStats := cs, pcRef := none }, [Event.pcCloseEv pc.id])
    | none => (s3, [])
  let r5 : SessState × List Event :=
    match r4.1.streamRef with
    | some stream =>
        ({ r4.1 with streamRef := none }, stream.tracks.map fun t => Event.trackStopEv t.id)
    | none => (r4.1, [])
  let s6 := { r5.1 with videoSrc := none }
  let r7 : SessState × List Event :=
    match s6.whipClientRef with
    | some _ =>
        match whipStopErr with
        | none => ({ s6 with whipClientRef := none }, [Event.whipStopEv, Event.yieldEv])
        | some msg => ({ s6 with error := some msg }, [Event.whipStopEv, Event.yieldEv])
    | none => (s6, [])
  (r7.1, r2.2 ++ (r4.2 ++ (r5.2 ++ r7.2)))

/-- The `oniceconnectionstatechange` handler installed by `startStream`
(`part_000` lines 234–239): on the `'failed'` state it records the
connection-failure message and invokes `stopStream`. -/
def onIceConnectionStateChange (pc : PeerConnection) (s : SessState)
    (whipStopErr : Option String) : SessState × List Event :=
  if pc.iceConnectionState = "failed" then
    stopStream
      { s with error := some "Connection failed. Please check your network and try again." }
      whipStopErr
  else (s, [])

/-- The `catch` block of `startStream` (`part_000` lines 304–308):
`setError(errorMessage)` followed by `await stopStream()`.  `evs` is the
trace accumulated before the exception; the trailing `yieldEv` is the
suspension point of `await stopStream()`. -/
def startFail (s : SessState) (evs : List Event) (msg : String) (ext : ExtCalls) :
    SessState × List Event :=
  let r := stopStream { s with error := some msg } ext.whipStopErr
  (r.1, evs ++ Event.setErrorEv (some msg) :: (r.2 ++ [Event.yieldEv]))

/-- The `getUserMedia` constraints object (`part_000` lines 167–180):
resolution bounds only when both width and height are truthy. -/
def mkConstraints (s : SessState) : Constraints :=
  { videoDeviceId := s.selectedVideo,
    width := if jsTruthy s.selectedResolution.width ∧ jsTruthy s.selectedResolution.height
      then s.selectedResolution.width else none,
    height := if jsTruthy s.selectedResolution.width ∧ jsTruthy s.selectedResolution.height
      then s.selectedResolution.height else none,
    audioDeviceId := s.selectedAudio,
    echoCancellation := true,
    noiseSuppression := true }

/-- Effects of one iteration of the track loop (`part_000` lines 191–232):
add a send-only transceiver with the computed encodings, and apply codec
preferences (an awaited call, hence the `yieldEv`) only when the computed
codec list is non-empty. -/
def perTrackEvents (s : SessState) (ext : ExtCalls) (t : MediaTrack) : List Event :=
  Event.addTransceiverEv t.kind (trackEncodings t.kind s.videoSettings s.audioSettings) ::
    (if (trackCodecs t.kind s.videoCodec s.audioCodec (ext.capabilities t.kind)).length > 0 then
      [Event.setCodecPrefEv (trackCodecs t.kind s.videoCodec s.audioCodec
        (ext.capabilities t.kind)), Event.yieldEv]
    else [])

/-- `startStream` (`part_000` lines 159–309): clear the error, validate the
URL, capture media, create the peer connection, configure transceivers,
publish; every failure path goes through the `catch` block (`startFail`).
On success the WHIP client ref is stored, streaming is flagged and the
recurring stats timer is started. -/
def startStream (s : SessState) (ext : ExtCalls) : SessState × List Event :=
  let s0 := { s with error := none }
  if s0.url = "" then
    startFail s0 [Event.setErrorEv none] "Please enter a WHIP URL" ext
  else
    match ext.getUserMedia with
    | Except.error msg =>
        startFail s0 [Event.setErrorEv none, Event.getUserMediaEv (mkConstraints s0),
          Event.yieldEv] msg ext
    | Except.ok stream =>
        let s2 := { s0 with
          streamRef := some stream,
          videoSrc := some stream,
          pcRef := some { id := ext.pcId, iceConnectionState := "new",
                          connectionState := "new" } }
        let evs := Event.setErrorEv none :: Event.getUserMediaEv (mkConstraints s0) ::
          Event.yieldEv :: Event.newPcEv ext.pcId ::
          (stream.tracks.flatMap (perTrackEvents s0 ext) ++
            [Event.publishEv s0.url s0.token, Event.yieldEv])
        match ext.publish with
        | some msg => startFail s2 evs msg ext
        | none =>
            ({ s2 with
                whipClientRef := some (),
                isStreaming := true,
                statsInterval := some ext.timerId },
             evs ++ [Event.setIntervalEv ext.timerId])

/-- Full characterization of the `stopStream` effect trace: an optional
timer cancellation, then an optional peer-connection close, then the local
track stops, then the optional WHIP DELETE. -/
theorem stopStream_trace (s : SessState) (e : Option String) :
    (stopStream s e).2 =
      (if jsTruthy s.statsInterval then [Event.clearIntervalEv (s.statsInterval.getD 0)]
        else []) ++
      ((match s.pcRef with
        | some pc => [Event.pcCloseEv pc.id]
        | none => []) ++
       ((match s.streamRef with
         | some stream => stream.tracks.map fun t => Event.trackStopEv t.id
         | none => []) ++
        (match s.whipClientRef with
         | some _ => [Event.whipStopEv, Event.yieldEv]
         | none => []))) := by
  by_cases h1 : jsTruthy s.statsInterval = true <;>
    cases h2 : s.pcRef <;> cases h3 : s.streamRef <;> cases h4 : s.whipClientRef <;>
    cases e <;>
    simp [stopStream, h1, h2, h3, h4]

/-- State effects of `stopStream` that do not depend on the input state:
the peer connection, stream, video element source are cleared, streaming is
flagged off, the bitrate baseline is reset and the media stats are cleared;
when no WHIP client ref is held the error and the (absent) client ref are
untouched. -/
theorem stopStream_state (s : SessState) (e : Option String) :
    (stopStream s e).1.pcRef = none ∧ (stopStream s e).1.streamRef = none ∧
    (stopStream s e).1.videoSrc = none ∧ (stopStream s e).1.isStreaming = false ∧
    (stopStream s e).1.lastBytesSent = { video := 0, audio := 0, timestamp := 0 } ∧
    (stopStream s e).1.videoStats = {} ∧ (stopStream s e).1.audioStats = {} ∧
    (s.whipClientRef = none →
      (stopStream s e).1.error = s.error ∧ (stopStream s e).1.whipClientRef = none) := by
  by_cases h1 : jsTruthy s.statsInterval = true <;>
    cases h2 : s.pcRef <;> cases h3 : s.streamRef <;> cases h4 : s.whipClientRef <;>
    cases e <;>
    simp [stopStream, h1, h2, h3, h4]

/-- Every effect `stopStream` performs is one of: timer cancellation, peer
close, track stop, WHIP DELETE, or an `await` suspension. -/
theorem stopStream_events_cases (s : SessState) (e : Option String) :
    ∀ ev ∈ (stopStream s e).2,
      (∃ n, ev = Event.clearIntervalEv n) ∨ (∃ n, ev = Event.pcCloseEv n) ∨
      (∃ n, ev = Event.trackStopEv n) ∨ ev = Event.whipStopEv ∨ ev = Event.yieldEv := by
  intro ev hev
  rw [stopStream_trace] at hev
  simp only [List.mem_append] at hev
  rcases hev with h | h | h | h
  · split at h
    · rw [List.mem_singleton] at h
      exact Or.inl ⟨_, h⟩
    · cases h
  · split at h
    · rw [List.mem_singleton] at h
      exact Or.inr (Or.inl ⟨_, h⟩)
    · cases h
  · split at h
    · obtain ⟨t, -, ht⟩ := List.mem_map.mp h
      exact Or.inr (Or.inr (Or.inl ⟨_, ht.symm⟩))
    · cases h
  · split at h
    · rcases List.mem_cons.mp h with rfl | h2
      · exact Or.inr (Or.inr (Or.inr (Or.inl rfl)))
      · rw [List.mem_singleton] at h2
        exact Or.inr (Or.inr (Or.inr (Or.inr h2)))
    · cases h

/-- **C6.** In every `stopStream` run — including the automatic one fired by
the `oniceconnectionstatechange` callback when the state is `'failed'` —
the trace splits into a part with no peer-connection close followed by a
part with no timer cancellation: the recurring stats timer is always
cancelled before the Transport Handle is released. -/
theorem stop_cancels_timer_before_close :
    (∀ (s : SessState) (e : Option String), ∃ l1 l2,
      (stopStream s e).2 = l1 ++ l2 ∧
      (∀ ev ∈ l1, ∀ n, ev ≠ Event.pcCloseEv n) ∧
      (∀ ev ∈ l2, ∀ n, ev ≠ Event.clearIntervalEv n)) ∧
    (∀ (pc : PeerConnection) (s : SessState) (e : Option String), ∃ l1 l2,
      (onIceConnectionStateChange pc s e).2 = l1 ++ l2 ∧
      (∀ ev ∈ l1, ∀ n, ev ≠ Event.pcCloseEv n) ∧
      (∀ ev ∈ l2, ∀ n, ev ≠ Event.clearIntervalEv n)) := by
  have key : ∀ (s : SessState) (e : Option String), ∃ l1 l2,
      (stopStream s e).2 = l1 ++ l2 ∧
      (∀ ev ∈ l1, ∀ n, ev ≠ Event.pcCloseEv n) ∧
      (∀ ev ∈ l2, ∀ n, ev ≠ Event.clearIntervalEv n) := by
    intro s e
    refine ⟨(if jsTruthy s.statsInterval then
        [Event.clearIntervalEv (s.statsInterval.getD 0)] else []),
      ((match s.pcRef with
        | some pc => [Event.pcCloseEv pc.id]
        | none => []) ++
       ((match s.streamRef with
         | some stream => stream.tracks.map fun t => Event.trackStopEv t.id
         | none => []) ++
        (match s.whipClientRef with
         | some _ => [Event.whipStopEv, Event.yieldEv]
         | none => []))), stopStream_trace s e, ?_, ?_⟩
    · rintro ev hev n rfl
      split at hev
      · rw [List.mem_singleton] at hev
        cases hev
      · cases hev
    · rintro ev hev n rfl
      simp only [List.mem_append] at hev
      rcases hev with h | h | h
      · split at h
        · rw [List.mem_singleton] at h
          cases h
        · cases h
      · split at h
        · obtain ⟨t, -, ht⟩ := List.mem_map.mp h
          cases ht
        · cases h
      · split at h
        · rcases List.mem_cons.mp h with h2 | h2
          · cases h2
          · rw [List.mem_singleton] at h2
            cases h2
        · cases h
  refine ⟨key, fun pc s e => ?_⟩
  unfold onIceConnectionStateChange
  split
  · exact key _ e
  · exact ⟨[], [], rfl, fun ev hev => absurd hev (List.not_mem_nil ev),
      fun ev hev => absurd hev (List.not_mem_nil ev)⟩

/-- **C10.** When `stopStream` runs with a live Transport Handle, the final
connection stats keep the real ICE and DTLS states if the ICE state is
`'failed'` and otherwise read `'closed'`/`'closed'`; the bitrate baseline is
reset to zero and the media stats are cleared. -/
theorem stop_final_connection_stats (s : SessState) (e : Option String)
    (pc : PeerConnection) (h : s.pcRef = some pc) :
    (stopStream s e).1.connectionStats =
      (if pc.iceConnectionState = "failed" then
        { iceState := some pc.iceConnectionState, dtlsState := some pc.connectionState }
      else { iceState := some "closed", dtlsState := some "closed" }) ∧
    (stopStream s e).1.lastBytesSent = { video := 0, audio := 0, timestamp := 0 } ∧
    (stopStream s e).1.videoStats = {} ∧ (stopStream s e).1.audioStats = {} := by
  by_cases h1 : jsTruthy s.statsInterval = true <;>
    cases h3 : s.streamRef <;> cases h4 : s.whipClientRef <;> cases e <;>
    simp [stopStream, h, h1, h3, h4]

/-- On a state already fully torn down, `stopStream` is a pure no-op:
same state back, empty effect trace. -/
theorem stopStream_noop (t : SessState) (e2 : Option String)
    (h1 : jsTruthy t.statsInterval = false) (h2 : t.pcRef = none)
    (h3 : t.streamRef = none) (h4 : t.whipClientRef = none)
    (h5 : t.isStreaming = false) (h6 : t.audioStats = {}) (h7 : t.videoStats = {})
    (h8 : t.lastBytesSent = { video := 0, audio := 0, timestamp := 0 })
    (h9 : t.videoSrc = none) :
    stopStream t e2 = (t, []) := by
  obtain ⟨u, tk, sv, sa, sr, isb, vst, ast, cst, vc, ac, er, vset, aset, wr, pr, strm,
    vsrc, lb, si⟩ := t
  dsimp only at h1 h2 h3 h4 h5 h6 h7 h8 h9
  subst h2 h3 h4 h5 h6 h7 h8 h9
  simp [stopStream, h1]

/-- After a clean `stopStream` (DELETE resolved or never issued), the timer
slot is no longer truthy. -/
theorem stopStream_interval_falsy (s : SessState) (e : Option String) :
    jsTruthy (stopStream s e).1.statsInterval = false := by
  by_cases h1 : jsTruthy s.statsInterval = true <;>
    cases h2 : s.pcRef <;> cases h3 : s.streamRef <;> cases h4 : s.whipClientRef <;>
    cases e <;>
    simp_all [stopStream, jsTruthy]

/-- A `stopStream` whose DELETE resolves (or that holds no client ref)
leaves no WHIP client reference behind. -/
theorem stopStream_whip_cleared (s : SessState) :
    (stopStream s none).1.whipClientRef = none := by
  by_cases h1 : jsTruthy s.statsInterval = true <;>
    cases h2 : s.pcRef <;> cases h3 : s.streamRef <;> cases h4 : s.whipClientRef <;>
    simp [stopStream, h1, h2, h3, h4]

/-- **C4 (amended).** When the first `stopStream` completes with a
successful (or absent) DELETE, a second call is a no-op: it returns the very
same state, performs no effect at all (no close, no timer cancellation, no
DELETE) and sets no error — regardless of how a DELETE on the second call
would have behaved, since none is issued. -/
theorem stop_idempotent_after_clean_stop (s : SessState) (e2 : Option String) :
    stopStream (stopStream s none).1 e2 = ((stopStream s none).1, []) := by
  obtain ⟨hpc, hstr, hvs, hisf, hlb, hvst, hast, -⟩ := stopStream_state s none
  exact stopStream_noop _ e2 (stopStream_interval_falsy s none) hpc hstr
    (stopStream_whip_cleared s) hisf hast hvst hlb hvs

/-- A concrete idle component state used as the base of witness scenarios. -/
def baseState : SessState :=
  { url := "https://example.com/whip", token := "", selectedVideo := "cam",
    selectedAudio := "mic", selectedResolution := { label := "Auto" },
    isStreaming := false, videoStats := {}, audioStats := {}, connectionStats := {},
    videoCodec := "auto".toList, audioCodec := "auto".toList, error := none,
    videoSettings := {}, audioSettings := {}, whipClientRef := none, pcRef := none,
    streamRef := none, videoSrc := none,
    lastBytesSent := { video := 0, audio := 0, timestamp := 0 }, statsInterval := none }

/-- **C4 counterexample.** If the DELETE of the first `stopStream` rejects,
the WHIP client ref survives (the `null` assignment is skipped by the
exception), so a second `stopStream` issues a second DELETE and sets an
error again — `stop` is not idempotent from such a state. -/
theorem stop_second_call_repeats_delete :
    (stopStream (stopStream { baseState with whipClientRef := some () }
        (some "DELETE failed")).1 (some "DELETE failed")).2 =
      [Event.whipStopEv, Event.yieldEv] ∧
    (stopStream (stopStream { baseState with whipClientRef := some () }
        (some "DELETE failed")).1 (some "DELETE failed")).1.error =
      some "DELETE failed" := by
  constructor <;> rfl

/-- **C4 witness.** Applying the amended idempotence statement to the
concrete base state. -/
theorem stop_idempotent_after_clean_stop_witness :
    stopStream (stopStream baseState none).1 none = ((stopStream baseState none).1, []) :=
  stop_idempotent_after_clean_stop baseState none

/-- **C6 witness.** On a live session holding timer `7` and peer connection
`9`, the trace decomposition of the claim is realized. -/
theorem stop_cancels_timer_before_close_witness :
    ∃ l1 l2,
      (stopStream { baseState with
                      statsInterval := some 7,
                      pcRef := some { id := 9, iceConnectionState := "connected",
                                      connectionState := "connected" } } none).2 = l1 ++ l2 ∧
      (∀ ev ∈ l1, ∀ n, ev ≠ Event.pcCloseEv n) ∧
      (∀ ev ∈ l2, ∀ n, ev ≠ Event.clearIntervalEv n) :=
  stop_cancels_timer_before_close.1 _ none

/-- **C10 witness.** Stopping while the ICE state is `'failed'` keeps the
real states in the final connection stats. -/
theorem stop_final_connection_stats_witness :
    (stopStream { baseState with
                    pcRef := some { id := 3, iceConnectionState := "failed",
                                    connectionState := "connected" } }
      none).1.connectionStats =
      { iceState := some "failed", dtlsState := some "connected" } := by
  have h := (stop_final_connection_stats
    { baseState with
        pcRef := some { id := 3, iceConnectionState := "failed",
                        connectionState := "connected" } } none
    { id := 3, iceConnectionState := "failed", connectionState := "connected" } rfl).1
  rw [h]
  rfl

/-- State effects and trace shape of the `startStream` failure path: the
error is recorded, the transport is gone, and the trace is the pre-failure
events, the `setError` call, the full teardown trace and the final `await`
suspension. -/
theorem startFail_spec (t : SessState) (evs : List Event) (msg : String)
    (ext : ExtCalls) (hwhip : t.whipClientRef = none) :
    (startFail t evs msg ext).1.error = some msg ∧
    (startFail t evs msg ext).1.pcRef = none ∧
    (startFail t evs msg ext).1.streamRef = none ∧
    (startFail t evs msg ext).2 =
      evs ++ Event.setErrorEv (some msg) ::
        ((stopStream { t with error := some msg } ext.whipStopErr).2 ++ [Event.yieldEv]) := by
  obtain ⟨hpc, hstr, -, -, -, -, -, herr⟩ :=
    stopStream_state { t with error := some msg } ext.whipStopErr
  exact ⟨(herr hwhip).1, hpc, hstr, rfl⟩

/-- **C7.** A start attempt with an empty endpoint URL fails immediately
with the configuration error message, before any peer connection or media
capture is created: the trace contains no `newPcEv` and no
`getUserMediaEv`, and no transport or stream reference exists afterward. -/
theorem start_empty_url_no_transport (s : SessState) (ext : ExtCalls)
    (hurl : s.url = "") (hwhip : s.whipClientRef = none) :
    (startStream s ext).1.error = some "Please enter a WHIP URL" ∧
    (startStream s ext).1.pcRef = none ∧
    (startStream s ext).1.streamRef = none ∧
    ∀ ev ∈ (startStream s ext).2,
      (∀ n, ev ≠ Event.newPcEv n) ∧ ∀ c, ev ≠ Event.getUserMediaEv c := by
  simp only [startStream]
  rw [if_pos hurl]
  obtain ⟨herr, hpc, hstr, htr⟩ := startFail_spec { s with error := none }
    [Event.setErrorEv none] "Please enter a WHIP URL" ext hwhip
  refine ⟨herr, hpc, hstr, ?_⟩
  rw [htr]
  intro ev hev
  simp only [List.singleton_append, List.mem_cons] at hev
  rcases hev with rfl | rfl | hev2
  · exact ⟨fun n hc => Event.noConfusion hc, fun c hc => Event.noConfusion hc⟩
  · exact ⟨fun n hc => Event.noConfusion hc, fun c hc => Event.noConfusion hc⟩
  · rcases List.mem_append.mp hev2 with h | h
    · rcases stopStream_events_cases _ _ ev h with ⟨n, rfl⟩ | ⟨n, rfl⟩ | ⟨n, rfl⟩ | rfl | rfl <;>
        exact ⟨fun m hc => Event.noConfusion hc, fun c hc => Event.noConfusion hc⟩
    · rw [List.mem_singleton] at h
      subst h
      exact ⟨fun m hc => Event.noConfusion hc, fun c hc => Event.noConfusion hc⟩

def emptyUrlExt : ExtCalls :=
  { getUserMedia := Except.ok { id := 1, tracks := [] },
    capabilities := fun _ => none, publish := none, pcId := 11, timerId := 5,
    whipStopErr := none }

/-- **C7 witness.** The configuration failure on the concrete idle state
with an empty URL. -/
theorem start_empty_url_no_transport_witness :
    (startStream { baseState with url := "" } emptyUrlExt).1.error =
        some "Please enter a WHIP URL" ∧
    (startStream { baseState with url := "" } emptyUrlExt).1.pcRef = none ∧
    (startStream { baseState with url := "" } emptyUrlExt).1.streamRef = none ∧
    ∀ ev ∈ (startStream { baseState with url := "" } emptyUrlExt).2,
      (∀ n, ev ≠ Event.newPcEv n) ∧ ∀ c, ev ≠ Event.getUserMediaEv c :=
  start_empty_url_no_transport { baseState with url := "" } emptyUrlExt rfl rfl

/-- Failure-path trace decomposition: when a live peer connection is held
and no WHIP client ref exists yet, the `catch` block's trace is the
pre-failure events, then the `setError` state write, then — with no
intervening `await` suspension — the close of the peer connection, with the
first suspension point (where the queued error can first render) strictly
after the close. -/
theorem startFail_trace_split (t : SessState) (evs : List Event) (msg : String)
    (ext : ExtCalls) (n : Nat) (pc : PeerConnection) (hpc : t.pcRef = some pc)
    (hid : pc.id = n) (hwhip : t.whipClientRef = none) :
    ∃ pre mid post,
      (startFail t evs msg ext).2 =
        pre ++ Event.setErrorEv (some msg) :: (mid ++ Event.pcCloseEv n :: post) ∧
      Event.yieldEv ∉ mid ∧ Event.yieldEv ∈ post := by
  subst hid
  refine ⟨evs,
    (if jsTruthy t.statsInterval then
      [Event.clearIntervalEv (t.statsInterval.getD 0)] else []),
    ((match t.streamRef with
      | some stream => stream.tracks.map fun tr => Event.trackStopEv tr.id
      | none => []) ++ [Event.yieldEv]), ?_, ?_, ?_⟩
  · simp only [startFail]
    rw [stopStream_trace]
    simp [hpc, hwhip]
  · intro hmem
    split at hmem
    · rw [List.mem_singleton] at hmem
      cases hmem
    · cases hmem
  · exact List.mem_append_right _ (List.mem_singleton_self _)

set_option maxHeartbeats 1000000 in
/-- **C3.** When the WHIP publish rejects after the peer connection has been
created, the attempt ends with the connection closed and its ref cleared,
exactly one recorded error, and — in the effect trace — the `setError`
state write followed by the `close()` call with no `await` suspension point
in between (the first suspension, where the queued error can first become
user-visible, comes after the close): no partially created transport is
left dangling when the error is reported. -/
theorem publish_failure_closes_pc_before_error_shown
    (s : SessState) (ext : ExtCalls) (stream : MediaStream) (msg : String)
    (hurl : s.url ≠ "") (hgum : ext.getUserMedia = Except.ok stream)
    (hpub : ext.publish = some msg) (hwhip : s.whipClientRef = none) :
    ((startStream s ext).1.pcRef = none ∧ (startStream s ext).1.error = some msg) ∧
    ∃ pre mid post,
      (startStream s ext).2 =
        pre ++ Event.setErrorEv (some msg) :: (mid ++ Event.pcCloseEv ext.pcId :: post) ∧
      Event.yieldEv ∉ mid ∧ Event.yieldEv ∈ post := by
  simp only [startStream, hgum, hpub]
  rw [if_neg hurl]
  constructor
  · constructor
    · exact (startFail_spec _ _ _ _ (by exact hwhip)).2.1
    · exact (startFail_spec _ _ _ _ (by exact hwhip)).1
  · apply startFail_trace_split
    · exact rfl
    · exact rfl
    · exact hwhip

def publishFailExt : ExtCalls :=
  { getUserMedia := Except.ok { id := 1, tracks := [] },
    capabilities := fun _ => none, publish := some "HTTP 500", pcId := 11, timerId := 5,
    whipStopErr := none }

/-- **C3 witness.** A concrete failed publish (HTTP 500) on the idle base
state: the handle is closed before the first suspension point following the
error write, and no transport remains. -/
theorem publish_failure_closes_pc_before_error_shown_witness :
    ((startStream baseState publishFailExt).1.pcRef = none ∧
      (startStream baseState publishFailExt).1.error = some "HTTP 500") ∧
    ∃ pre mid post,
      (startStream baseState publishFailExt).2 =
        pre ++ Event.setErrorEv (some "HTTP 500") ::
          (mid ++ Event.pcCloseEv publishFailExt.pcId :: post) ∧
      Event.yieldEv ∉ mid ∧ Event.yieldEv ∈ post :=
  publish_failure_closes_pc_before_error_shown baseState publishFailExt
    { id := 1, tracks := [] } "HTTP 500" (by decide) rfl rfl rfl

/-- **C9 witness.** The dropdown built from
`[video/VP8, video/rtx, video/H264]`: `Auto` first, `rtx` excluded, labels
distinct, tail sorted. -/
theorem getUniqueCodecs_spec_witness :
    (getUniqueCodecs (some [{ mimeType := "video/VP8".toList },
        { mimeType := "video/rtx".toList }, { mimeType := "video/H264".toList }])).head? =
        some { mimeType := "auto".toList, label := "Auto".toList }
    ∧ (∀ o ∈ getUniqueCodecs (some [{ mimeType := "video/VP8".toList },
        { mimeType := "video/rtx".toList }, { mimeType := "video/H264".toList }]),
        excludedTest o.mimeType = false)
    ∧ ((getUniqueCodecs (some [{ mimeType := "video/VP8".toList },
        { mimeType := "video/rtx".toList },
        { mimeType := "video/H264".toList }])).map CodecOption.label).Nodup
    ∧ List.Sorted codecLe (getUniqueCodecs (some [{ mimeType := "video/VP8".toList },
        { mimeType := "video/rtx".toList }, { mimeType := "video/H264".toList }])).tail
    ∧ getUniqueCodecs none = [] :=
  getUniqueCodecs_spec [{ mimeType := "video/VP8".toList },
    { mimeType := "video/rtx".toList }, { mimeType := "video/H264".toList }]
